import Mathlib

/-!
Verification of the Dedupe pipeline (dedupe/api.py) against its
natural-language specification.  The Python code is shallowly embedded:
dictionaries become association lists, numpy float arrays become lists of
rationals, and exceptions become Except values.  Components that live in
modules outside this repository snapshot (core, training, crossvalidation,
clustering) are either taken as abstract parameters of the orchestration
functions or modelled from the specification, as noted in doc comments.
-/

/-! ## Candidate pair generation

Both goodThreshold and duplicateClusters build their candidate stream as

  candidates = (pair for block in blocks for pair in itertools.combinations(block, 2))

namely the concatenation over blocks of all index-ordered pairs within the
block.  combinations2 is itertools.combinations(block, 2): for positions
i < j it yields (block[i], block[j]) in lexicographic position order. -/

def combinations2 {α : Type} : List α → List (α × α)
  | [] => []
  | x :: xs => (xs.map (fun y => (x, y))) ++ combinations2 xs

/-- The candidate pairs scored by goodThreshold and duplicateClusters:
within-block pairs, concatenated across blocks. -/
def candidates {α : Type} (blocks : List (List α)) : List (α × α) :=
  blocks.bind combinations2

/-- How many times the unordered pair of x and y occurs in a list of
ordered pairs. -/
def countUnorderedPair {α : Type} [DecidableEq α] (x y : α) (l : List (α × α)) : ℕ :=
  l.countP (fun p => decide (p = (x, y)) || decide (p = (y, x)))

theorem countUnorderedPair_append {α : Type} [DecidableEq α] (x y : α)
    (l₁ l₂ : List (α × α)) :
    countUnorderedPair x y (l₁ ++ l₂) =
      countUnorderedPair x y l₁ + countUnorderedPair x y l₂ := by
  simp [countUnorderedPair, List.countP_append]

theorem countUnorderedPair_eq_counts {α : Type} [DecidableEq α] (x y : α)
    (hxy : x ≠ y) (l : List (α × α)) :
    countUnorderedPair x y l =
      l.countP (fun p => decide (p = (x, y))) +
        l.countP (fun p => decide (p = (y, x))) := by
  induction l with
  | nil => simp [countUnorderedPair]
  | cons p l ih =>
    have hne : ((x, y) : α × α) ≠ (y, x) := by
      intro h
      exact hxy (congrArg Prod.fst h)
    rw [countUnorderedPair, List.countP_cons, List.countP_cons, List.countP_cons,
      show List.countP _ l = countUnorderedPair x y l from rfl, ih]
    by_cases h1 : p = (x, y) <;> by_cases h2 : p = (y, x)
    · exact absurd (h1.symm.trans h2) hne
    all_goals simp [h1, h2, hxy, Ne.symm hxy] <;> omega

theorem countUnorderedPair_combinations2 {α : Type} [DecidableEq α]
    (x y : α) (hxy : x ≠ y) :
    ∀ (l : List α), l.Nodup →
      countUnorderedPair x y (combinations2 l) =
        (if x ∈ l ∧ y ∈ l then 1 else 0) := by
  intro l
  induction l with
  | nil => intro _; simp [combinations2, countUnorderedPair]
  | cons a l ih =>
    intro hnd
    have hal : a ∉ l := (List.nodup_cons.mp hnd).1
    have hndl : l.Nodup := (List.nodup_cons.mp hnd).2
    have hsingle : ∀ v : α, l.countP (fun b => decide (b = v)) =
        if v ∈ l then 1 else 0 := by
      intro v
      rw [show l.countP (fun b => decide (b = v)) = l.count v from rfl]
      exact List.count_eq_of_nodup hndl
    have hcount : ∀ u v : α,
        (l.map (fun b => (a, b))).countP (fun p => decide (p = (u, v))) =
          if a = u then l.countP (fun b => decide (b = v)) else 0 := by
      intro u v
      rw [List.countP_map]
      by_cases hau : a = u
      · subst hau
        rw [if_pos rfl]
        apply List.countP_congr
        intro b _
        simp [Function.comp, Prod.ext_iff]
      · rw [if_neg hau, List.countP_eq_zero]
        intro b _
        simp [Function.comp, Prod.ext_iff, hau]
    have hsplit : countUnorderedPair x y (l.map (fun b => (a, b))) =
        (if a = x then (if y ∈ l then 1 else 0) else 0) +
          (if a = y then (if x ∈ l then 1 else 0) else 0) := by
      rw [countUnorderedPair_eq_counts x y hxy, hcount, hcount]
      simp only [hsingle]
    rw [show combinations2 (a :: l) = (l.map (fun y => (a, y))) ++ combinations2 l
        from rfl,
      countUnorderedPair_append, hsplit, ih hndl]
    simp only [List.mem_cons]
    rcases eq_or_ne a x with hax | hax
    · subst hax
      have hay : a ≠ y := hxy
      simp [hal, hay, Ne.symm hay]
    · rcases eq_or_ne a y with hay | hay
      · subst hay
        simp [hal, hax, Ne.symm hax]
      · simp [hax, hay, Ne.symm hax, Ne.symm hay]

/-- C1 counterexample input: two blocks each containing records 1 and 2.
The unordered pair of 1 and 2 is produced (and hence scored) twice: the
candidate stream is not deduplicated across blocks. -/
theorem candidates_dedup_cex :
    candidates [[1, 2], [1, 2]] = [(1, 2), (1, 2)] ∧
      countUnorderedPair 1 2 (candidates [[1, 2], [1, 2]]) = 2 := by
  constructor <;> rfl

/-- C1 (amended): the candidate pairs scored by goodThreshold and
duplicateClusters are all unordered pairs within each block, concatenated
across blocks with no deduplication: a pair of distinct records is scored
once per block in which the two records co-occur. -/
theorem candidates_pair_count {α : Type} [DecidableEq α]
    (blocks : List (List α)) (x y : α) (hxy : x ≠ y)
    (hnd : ∀ b ∈ blocks, b.Nodup) :
    countUnorderedPair x y (candidates blocks) =
      blocks.countP (fun b => decide (x ∈ b) && decide (y ∈ b)) := by
  induction blocks with
  | nil => simp [candidates, countUnorderedPair]
  | cons b bs ih =>
    have hb : b.Nodup := hnd b (List.mem_cons_self b bs)
    have hbs : ∀ c ∈ bs, c.Nodup := fun c hc => hnd c (List.mem_cons_of_mem b hc)
    simp only [candidates, List.cons_bind] at *
    rw [countUnorderedPair_append, ih hbs,
      countUnorderedPair_combinations2 x y hxy b hb, List.countP_cons]
    by_cases hx : x ∈ b <;> by_cases hy : y ∈ b <;>
      simp [hx, hy, Nat.add_comm]

/-- Witness for candidates_pair_count at a concrete input. -/
theorem candidates_pair_count_witness :
    countUnorderedPair 1 2 (candidates [[1, 2, 3], [1, 2], [3, 1]]) =
      List.countP (fun b => decide (1 ∈ b) && decide (2 ∈ b)) [[1, 2, 3], [1, 2], [3, 1]] :=
  candidates_pair_count [[1, 2, 3], [1, 2], [3, 1]] 1 2 (by decide) (by decide)

/-! ## goodThreshold

Embedding of Dedupe.goodThreshold.  The probabilities coming out of
core.scorePairs are taken as the input list (core is outside this
repository snapshot).  The source sorts the probability array ascending
and reverses it, forms cumulative sums as expected duplicate counts,
computes recall as cumsum over the final cumulative sum, precision as
cumsum over the one-based position, scores each cutoff with
recall * precision / (recall + recall_weight^2 * precision), and returns
the probability at numpy.argmax of the scores, argmax taking the first
maximising index. -/

/-- probability.sort() followed by the reversing slice: the probabilities
in descending order. -/
def sortDesc (l : List ℚ) : List ℚ :=
  (List.insertionSort (· ≤ ·) l).reverse

/-- Cumulative sum at zero-based index i: expected_dupes[i]. -/
def cumAt (s : List ℚ) (i : ℕ) : ℚ :=
  (s.take (i + 1)).sum

/-- recall[i] = expected_dupes[i] / expected_dupes[-1]. -/
def recallAt (s : List ℚ) (i : ℕ) : ℚ :=
  cumAt s i / s.sum

/-- precision[i] = expected_dupes[i] / (i + 1). -/
def precisionAt (s : List ℚ) (i : ℕ) : ℚ :=
  cumAt s i / ((i : ℚ) + 1)

/-- score[i] = recall * precision / (recall + recall_weight^2 * precision). -/
def scoreAt (w : ℚ) (s : List ℚ) (i : ℕ) : ℚ :=
  recallAt s i * precisionAt s i /
    (recallAt s i + w ^ 2 * precisionAt s i)

/-- The score array over all cutoffs. -/
def scores (w : ℚ) (s : List ℚ) : List ℚ :=
  (List.range s.length).map (scoreAt w s)

/-- The precision array over all cutoffs. -/
def precisions (s : List ℚ) : List ℚ :=
  (List.range s.length).map (precisionAt s)

/-- numpy.argmax: the first index attaining the maximum value. -/
def argmaxFirst : List ℚ → ℕ
  | [] => 0
  | [_] => 0
  | x :: y :: ys =>
    if x < (y :: ys).getD (argmaxFirst (y :: ys)) 0 then
      argmaxFirst (y :: ys) + 1
    else 0

/-- Dedupe.goodThreshold: the probability at the first score-maximising
cutoff of the descending-sorted probabilities. -/
def goodThreshold (probs : List ℚ) (recall_weight : ℚ) : ℚ :=
  (sortDesc probs).getD (argmaxFirst (scores recall_weight (sortDesc probs))) 0

theorem argmaxFirst_lt_length : ∀ (l : List ℚ), l ≠ [] → argmaxFirst l < l.length := by
  intro l
  induction l with
  | nil => intro h; exact absurd rfl h
  | cons x xs ih =>
    intro _
    cases xs with
    | nil => simp [argmaxFirst]
    | cons y ys =>
      rw [argmaxFirst]
      split
      · have := ih (by simp)
        simpa using Nat.succ_lt_succ this
      · simp

theorem argmaxFirst_is_max : ∀ (l : List ℚ) (j : ℕ), j < l.length →
    l.getD j 0 ≤ l.getD (argmaxFirst l) 0 := by
  intro l
  induction l with
  | nil => intro j hj; simp at hj
  | cons x xs ih =>
    intro j hj
    cases xs with
    | nil =>
      cases j with
      | zero => simp [argmaxFirst]
      | succ j =>
        simp only [List.length_cons, List.length_nil] at hj
        omega
    | cons y ys =>
      rw [argmaxFirst]
      split
      · rename_i hlt
        cases j with
        | zero =>
          simpa using le_of_lt hlt
        | succ j =>
          simp only [List.getD_cons_succ]
          exact ih j (by simpa using hj)
      · rename_i hge
        push_neg at hge
        cases j with
        | zero => simp
        | succ j =>
          simp only [List.getD_cons_succ, List.getD_cons_zero]
          exact le_trans (ih j (by simpa using hj)) hge

theorem argmaxFirst_first : ∀ (l : List ℚ) (j : ℕ), j < argmaxFirst l →
    l.getD j 0 < l.getD (argmaxFirst l) 0 := by
  intro l
  induction l with
  | nil => intro j hj; simp [argmaxFirst] at hj
  | cons x xs ih =>
    intro j hj
    cases xs with
    | nil => simp [argmaxFirst] at hj
    | cons y ys =>
      rw [argmaxFirst] at hj ⊢
      split
      · rename_i hlt
        rw [if_pos hlt] at hj
        cases j with
        | zero => simpa using hlt
        | succ j =>
          simp only [List.getD_cons_succ]
          exact ih j (Nat.lt_of_succ_lt_succ hj)
      · rename_i hge
        rw [if_neg hge] at hj
        exact absurd hj (Nat.not_lt_zero j)

theorem sortDesc_perm (l : List ℚ) : (sortDesc l).Perm l :=
  (List.reverse_perm _).trans (List.perm_insertionSort _ l)

theorem sortDesc_sorted (l : List ℚ) : (sortDesc l).Sorted (· ≥ ·) := by
  have h := List.sorted_insertionSort (· ≤ ·) l
  exact List.pairwise_reverse.mpr (by simpa [flip] using h)

theorem sortDesc_length (l : List ℚ) : (sortDesc l).length = l.length :=
  (sortDesc_perm l).length_eq

theorem getD_of_lt (l : List ℚ) (i : ℕ) (h : i < l.length) :
    l.getD i 0 = l.get ⟨i, h⟩ := by
  simp [List.getD_eq_getElem?_getD, List.getElem?_eq_getElem h, List.get_eq_getElem]

theorem sortDesc_getD_le (l : List ℚ) (i j : ℕ) (hij : i ≤ j)
    (hj : j < (sortDesc l).length) :
    (sortDesc l).getD j 0 ≤ (sortDesc l).getD i 0 := by
  have hi : i < (sortDesc l).length := lt_of_le_of_lt hij hj
  rw [getD_of_lt _ _ hj, getD_of_lt _ _ hi]
  exact (sortDesc_sorted l).rel_get_of_le
    (show (⟨i, hi⟩ : Fin (sortDesc l).length) ≤ ⟨j, hj⟩ from hij)

theorem scores_length (w : ℚ) (s : List ℚ) : (scores w s).length = s.length := by
  simp [scores]

theorem scores_getD (w : ℚ) (s : List ℚ) (j : ℕ) (hj : j < s.length) :
    (scores w s).getD j 0 = scoreAt w s j := by
  rw [getD_of_lt _ _ (by simpa [scores_length] using hj)]
  simp [scores, List.get_eq_getElem]

theorem precisions_length (s : List ℚ) : (precisions s).length = s.length := by
  simp [precisions]

/-- C2 counterexample input: probabilities 2/3 and 1/3 with recall_weight 1.
Both cutoffs attain the maximal score 1/3, and goodThreshold returns 2/3,
the larger of the two tied probabilities, not the smaller. -/
theorem goodThreshold_tie_cex :
    scores 1 (sortDesc [2/3, 1/3]) = [1/3, 1/3] ∧
      goodThreshold [2/3, 1/3] 1 = 2/3 ∧
      (sortDesc [2/3, 1/3]).getD 1 0 = 1/3 ∧ ((2 : ℚ)/3 ≠ 1/3) := by
  have hs : sortDesc [2/3, 1/3] = [2/3, 1/3] := by
    simp only [sortDesc, List.insertionSort, List.orderedInsert]
    norm_num
  have hsc : scores 1 (sortDesc [2/3, 1/3]) = [1/3, 1/3] := by
    rw [hs]
    simp only [scores, List.length_cons, List.length_nil, List.range_succ,
      List.range_zero, List.nil_append, List.cons_append, List.map_cons,
      List.map_nil, scoreAt, recallAt, precisionAt, cumAt, List.take_cons,
      List.take_nil, List.sum_cons, List.sum_nil, List.take_succ_cons]
    norm_num
  have ham : argmaxFirst [1/3, 1/3] = 0 := by
    rw [argmaxFirst]
    norm_num [argmaxFirst]
  refine ⟨hsc, ?_, ?_, by norm_num⟩
  · rw [goodThreshold, hsc, ham, hs]
    norm_num
  · rw [hs]
    norm_num

/-- C2 (amended): goodThreshold sorts the probabilities in descending order,
forms cumulative sums as estimated duplicate counts, computes expected recall
and precision at each cutoff, scores each cutoff with the F-measure built
from recall_weight, and returns the probability at the first maximising
cutoff; when several cutoffs attain the maximal score, the returned
probability is the LARGEST probability among the maximisers. -/
theorem goodThreshold_argmax (probs : List ℚ) (w : ℚ) (hne : probs ≠ []) :
    (sortDesc probs).Perm probs ∧
    (sortDesc probs).Sorted (· ≥ ·) ∧
    goodThreshold probs w =
      (sortDesc probs).getD (argmaxFirst (scores w (sortDesc probs))) 0 ∧
    argmaxFirst (scores w (sortDesc probs)) < (sortDesc probs).length ∧
    (∀ j, j < (scores w (sortDesc probs)).length →
      (scores w (sortDesc probs)).getD j 0 ≤
        (scores w (sortDesc probs)).getD (argmaxFirst (scores w (sortDesc probs))) 0) ∧
    (∀ j, j < (scores w (sortDesc probs)).length →
      (scores w (sortDesc probs)).getD j 0 =
          (scores w (sortDesc probs)).getD (argmaxFirst (scores w (sortDesc probs))) 0 →
      (sortDesc probs).getD j 0 ≤
        (sortDesc probs).getD (argmaxFirst (scores w (sortDesc probs))) 0) := by
  have hsne : sortDesc probs ≠ [] := by
    intro h
    apply hne
    have := sortDesc_length probs
    rw [h] at this
    exact List.length_eq_zero.mp this.symm
  have hscne : scores w (sortDesc probs) ≠ [] := by
    intro h
    apply hsne
    have := scores_length w (sortDesc probs)
    rw [h] at this
    exact List.length_eq_zero.mp this.symm
  refine ⟨sortDesc_perm probs, sortDesc_sorted probs, rfl, ?_, ?_, ?_⟩
  · have := argmaxFirst_lt_length _ hscne
    rwa [scores_length] at this
  · intro j hj
    exact argmaxFirst_is_max _ j hj
  · intro j hj heq
    have hile : argmaxFirst (scores w (sortDesc probs)) ≤ j := by
      by_contra hlt
      push_neg at hlt
      exact absurd heq (ne_of_lt (argmaxFirst_first _ j hlt))
    exact sortDesc_getD_le probs _ j hile (by rwa [scores_length] at hj)

/-- Witness for goodThreshold_argmax at a concrete input. -/
theorem goodThreshold_argmax_witness :
    (sortDesc [(1 : ℚ)/2, 3/4]).Perm [(1 : ℚ)/2, 3/4] ∧
    (sortDesc [(1 : ℚ)/2, 3/4]).Sorted (· ≥ ·) ∧
    goodThreshold [(1 : ℚ)/2, 3/4] 1 =
      (sortDesc [(1 : ℚ)/2, 3/4]).getD
        (argmaxFirst (scores 1 (sortDesc [(1 : ℚ)/2, 3/4]))) 0 ∧
    argmaxFirst (scores 1 (sortDesc [(1 : ℚ)/2, 3/4])) <
      (sortDesc [(1 : ℚ)/2, 3/4]).length ∧
    (∀ j, j < (scores 1 (sortDesc [(1 : ℚ)/2, 3/4])).length →
      (scores 1 (sortDesc [(1 : ℚ)/2, 3/4])).getD j 0 ≤
        (scores 1 (sortDesc [(1 : ℚ)/2, 3/4])).getD
          (argmaxFirst (scores 1 (sortDesc [(1 : ℚ)/2, 3/4]))) 0) ∧
    (∀ j, j < (scores 1 (sortDesc [(1 : ℚ)/2, 3/4])).length →
      (scores 1 (sortDesc [(1 : ℚ)/2, 3/4])).getD j 0 =
          (scores 1 (sortDesc [(1 : ℚ)/2, 3/4])).getD
            (argmaxFirst (scores 1 (sortDesc [(1 : ℚ)/2, 3/4]))) 0 →
      (sortDesc [(1 : ℚ)/2, 3/4]).getD j 0 ≤
        (sortDesc [(1 : ℚ)/2, 3/4]).getD
          (argmaxFirst (scores 1 (sortDesc [(1 : ℚ)/2, 3/4]))) 0) :=
  goodThreshold_argmax [(1 : ℚ)/2, 3/4] 1 (List.cons_ne_nil _ _)

theorem sortDesc_pos (probs : List ℚ) (hpos : ∀ p ∈ probs, 0 < p) :
    ∀ p ∈ sortDesc probs, 0 < p := by
  intro p hp
  exact hpos p ((sortDesc_perm probs).mem_iff.mp hp)

theorem cumAt_pos (s : List ℚ) (i : ℕ) (hi : i < s.length)
    (hpos : ∀ p ∈ s, 0 < p) : 0 < cumAt s i := by
  apply List.sum_pos
  · intro x hx
    exact hpos x (List.take_subset _ _ hx)
  · intro h
    have hlen : (s.take (i + 1)).length = 0 := by rw [h]; rfl
    rw [List.length_take] at hlen
    omega

theorem scoreAt_zero (s : List ℚ) (i : ℕ) (hi : i < s.length)
    (hpos : ∀ p ∈ s, 0 < p) : scoreAt 0 s i = precisionAt s i := by
  have hc : 0 < cumAt s i := cumAt_pos s i hi hpos
  have hsum : 0 < s.sum := by
    apply List.sum_pos s hpos
    intro h
    rw [h] at hi
    simp at hi
  have hr : recallAt s i ≠ 0 := ne_of_gt (div_pos hc hsum)
  unfold scoreAt
  rw [show ((0 : ℚ) ^ 2) = 0 by norm_num, zero_mul, add_zero]
  exact mul_div_cancel_left₀ _ hr

theorem scores_zero (s : List ℚ) (hpos : ∀ p ∈ s, 0 < p) :
    scores 0 s = precisions s := by
  unfold scores precisions
  apply List.map_congr_left
  intro i hi
  exact scoreAt_zero s i (List.mem_range.mp hi) hpos

/-- C8: with recall_weight 0 the score at every cutoff equals the precision
at that cutoff (the recall factor cancels as soon as recall is nonzero,
which positivity of the probabilities guarantees), so goodThreshold returns
the probability at the first precision-maximising cutoff. -/
theorem goodThreshold_zero_recall_weight (probs : List ℚ)
    (hpos : ∀ p ∈ probs, 0 < p) :
    scores 0 (sortDesc probs) = precisions (sortDesc probs) ∧
    goodThreshold probs 0 =
      (sortDesc probs).getD (argmaxFirst (precisions (sortDesc probs))) 0 := by
  have h := scores_zero (sortDesc probs) (sortDesc_pos probs hpos)
  exact ⟨h, by rw [goodThreshold, h]⟩

/-- Witness for goodThreshold_zero_recall_weight at a concrete input. -/
theorem goodThreshold_zero_recall_weight_witness :
    scores 0 (sortDesc [(1 : ℚ)/2, 1/4]) = precisions (sortDesc [(1 : ℚ)/2, 1/4]) ∧
    goodThreshold [(1 : ℚ)/2, 1/4] 0 =
      (sortDesc [(1 : ℚ)/2, 1/4]).getD
        (argmaxFirst (precisions (sortDesc [(1 : ℚ)/2, 1/4]))) 0 :=
  goodThreshold_zero_recall_weight [(1 : ℚ)/2, 1/4]
    (by intro p hp; rcases List.mem_cons.mp hp with rfl | hp'
        · norm_num
        · rcases List.mem_cons.mp hp' with rfl | hp''
          · norm_num
          · simp at hp'')

/-! ## duplicateClusters

Dedupe.duplicateClusters sets cluster_threshold = threshold * 0.7, builds
the candidate stream, scores it with core.scoreDuplicates at the CALLER
threshold, and hands the surviving weighted edges to clustering.cluster at
cluster_threshold.  clustering.cluster lives outside this snapshot and is
taken as an abstract parameter clusterFn. -/

/-- Modelled from the spec: core.scoreDuplicates (the Scorer contract of
section 4.11, its code is not in this snapshot) emits (pair, probability)
for each candidate and drops pairs whose probability is below the given
threshold.  The per-pair probability function is abstract. -/
def scoreDuplicates {α : Type} (score : α × α → ℚ)
    (cands : List (α × α)) (threshold : ℚ) : List ((α × α) × ℚ) :=
  (cands.map (fun c => (c, score c))).filter (fun e => threshold ≤ e.2)

/-- Dedupe.duplicateClusters: cluster_threshold = threshold * 0.7; the
edges passed to clustering are scored at the caller threshold. -/
def duplicateClusters {α : Type} (clusterFn : List ((α × α) × ℚ) → ℚ → List (List α))
    (score : α × α → ℚ) (blocks : List (List α)) (threshold : ℚ) :
    List (List α) :=
  clusterFn (scoreDuplicates score (candidates blocks) threshold)
    (threshold * (7 / 10))

/-- C4 counterexample input: one block with records 0 and 1, constant pair
probability 1/2, threshold 7/10.  The pair probability 1/2 is at least
cluster_threshold = 49/100, so the claim says it is clustered, yet
scoreDuplicates (called at the caller threshold 7/10) drops it: the edge
list handed to clustering is empty. -/
theorem duplicateClusters_threshold_cex :
    scoreDuplicates (fun _ => (1 : ℚ)/2) (candidates [[0, 1]]) (7/10) = [] ∧
      ((7 : ℚ)/10) * (7/10) ≤ 1/2 ∧
      candidates [[0, 1]] = [(0, 1)] ∧
      duplicateClusters (fun es _ => es.map (fun e => [e.1.1, e.1.2]))
        (fun _ => (1 : ℚ)/2) [[0, 1]] (7/10) = [] := by
  have hc : candidates [[0, 1]] = [((0 : ℕ), 1)] := rfl
  have hs : scoreDuplicates (fun _ => (1 : ℚ)/2) (candidates [[0, 1]]) (7/10) = [] := by
    rw [hc]
    simp only [scoreDuplicates, List.map_cons, List.map_nil, List.filter]
    norm_num
  refine ⟨hs, by norm_num, hc, ?_⟩
  rw [duplicateClusters, hs]
  rfl

/-- C4 (amended): duplicateClusters hands to the clustering step exactly the
weighted edges whose probability is at least the CALLER threshold t (the
scoreDuplicates filter runs at t, not at t * 0.7), and cuts the clustering
at cluster_threshold = t * 0.7: the 0.7 factor relating the two thresholds
is preserved. -/
theorem duplicateClusters_edges {α : Type}
    (clusterFn : List ((α × α) × ℚ) → ℚ → List (List α))
    (score : α × α → ℚ) (blocks : List (List α)) (t : ℚ) :
    duplicateClusters clusterFn score blocks t =
      clusterFn (scoreDuplicates score (candidates blocks) t) (t * (7 / 10)) ∧
    ∀ e : (α × α) × ℚ,
      e ∈ scoreDuplicates score (candidates blocks) t ↔
        (e.1 ∈ candidates blocks ∧ e.2 = score e.1 ∧ t ≤ e.2) := by
  refine ⟨rfl, ?_⟩
  intro e
  simp only [scoreDuplicates, List.mem_filter, List.mem_map]
  constructor
  · rintro ⟨⟨c, hc, rfl⟩, hle⟩
    exact ⟨hc, rfl, by simpa using hle⟩
  · rintro ⟨hmem, hval, hle⟩
    refine ⟨⟨e.1, hmem, ?_⟩, by simpa using hle⟩
    rw [← hval]

/-! ## Data model construction

Embedding of _initializeDataModel.  A field definition maps field names to
raw specs; a raw spec is either not a dictionary or a dictionary carrying
an optional type string, an optional comparator and an optional Missing
flag.  Python dictionaries become ordered association lists; assignment
into the OrderedDict updates in place when the key exists and appends
otherwise (odInsert). -/

/-- A distance kernel bound to a field: the affine-gap default or an
abstract user-supplied comparator. -/
inductive Comparator : Type
  | affineGap : Comparator
  | custom : ℕ → Comparator
deriving DecidableEq

/-- A raw field spec as passed by the user: either not a dict, or a dict
with the keys _initializeDataModel inspects. -/
inductive RawSpec : Type
  | notDict : RawSpec
  | dict : Option String → Option Comparator → Option Bool → RawSpec
deriving DecidableEq

/-- The type value of a raw spec, none when absent or not a dict. -/
def RawSpec.typeOf : RawSpec → Option String
  | .notDict => none
  | .dict t _ _ => t

/-- The Missing value of a raw spec, none when absent or not a dict. -/
def RawSpec.missingOf : RawSpec → Option Bool
  | .notDict => none
  | .dict _ _ m => m

/-- A field record of the constructed data model. -/
structure ModelField : Type where
  ftype : String
  comparator : Option Comparator
  missing : Option Bool
  weight : ℚ
deriving DecidableEq

/-- The constructed data model: ordered fields plus the bias term. -/
structure DataModel : Type where
  fields : List (String × ModelField)
  bias : ℚ
deriving DecidableEq

/-- OrderedDict assignment: update in place when the key exists, append
otherwise. -/
def odInsert {F : Type} (m : List (String × F)) (k : String) (v : F) :
    List (String × F) :=
  if m.any (fun p => decide (p.1 = k)) then
    m.map (fun p => if p.1 = k then (k, v) else p)
  else m ++ [(k, v)]

/-- The validation chain of _initializeDataModel for one field spec,
raising ValueError for a non-dict spec, a missing type, a type other than
String or Custom, a comparator on a String field or a missing comparator
on a Custom field; a String field gets the affine-gap comparator and every
field gets weight 0. -/
def checkField : RawSpec → Except String ModelField
  | .notDict => .error "Incorrect field specification"
  | .dict t c m =>
    match t with
    | none => .error "Incorrect field specification"
    | some ty =>
      if ty = "String" then
        if c.isSome then
          .error "Custom comparators can only be defined for Custom fields"
        else .ok ⟨ty, some Comparator.affineGap, m, 0⟩
      else if ty = "Custom" then
        if c = none then
          .error "Custom field types require a comparator in the definition"
        else .ok ⟨ty, c, m, 0⟩
      else .error "Incorrect field specification"

/-- The first loop of _initializeDataModel: validate each field spec in
order and assign it into the ordered fields dict. -/
def buildFields : List (String × RawSpec) → List (String × ModelField) →
    Except String (List (String × ModelField))
  | [], acc => .ok acc
  | (k, v) :: rest, acc =>
    match checkField v with
    | .error e => .error e
    | .ok f => buildFields rest (odInsert acc k f)

/-- The synthetic companion field appended for a field with Missing true:
weight 0 and type Missing Data. -/
def missingDataField : ModelField :=
  ⟨"Missing Data", none, none, 0⟩

/-- One step of the second loop of _initializeDataModel: a field with
Missing true appends its companion, a field with Missing false is left
alone, a field without a Missing key gets Missing set to False in place. -/
def amiStep (acc : List (String × ModelField)) (kv : String × ModelField) :
    List (String × ModelField) :=
  match kv.2.missing with
  | some true => odInsert acc (kv.1 ++ ": not_missing") missingDataField
  | some false => acc
  | none => odInsert acc kv.1 { kv.2 with missing := some false }

/-- The second loop of _initializeDataModel: iterate over a snapshot of the
fields just built, mutating the ordered dict. -/
def addMissingIndicators (fs : List (String × ModelField)) :
    List (String × ModelField) :=
  fs.foldl amiStep fs

/-- Embedding of the whole _initializeDataModel: build the fields dict,
run the Missing loop, and set bias to 0. -/
def initializeDataModel (fields : List (String × RawSpec)) :
    Except String DataModel :=
  match buildFields fields [] with
  | .error e => .error e
  | .ok fs => .ok ⟨addMissingIndicators fs, 0⟩

/-- The rejection condition of the spec, read off the validation chain. -/
def badRawSpec : RawSpec → Bool
  | .notDict => true
  | .dict t c _ =>
    match t with
    | none => true
    | some ty =>
      (decide (ty ≠ "String") && decide (ty ≠ "Custom")) ||
        (decide (ty = "String") && c.isSome) ||
        (decide (ty = "Custom") && decide (c = none))

theorem checkField_isOk (v : RawSpec) :
    (checkField v).isOk = true ↔ badRawSpec v = false := by
  cases v with
  | notDict => simp [checkField, badRawSpec, Except.isOk, Except.toBool]
  | dict t c m =>
    cases t with
    | none => simp [checkField, badRawSpec, Except.isOk, Except.toBool]
    | some ty =>
      by_cases hS : ty = "String"
      · subst hS
        cases c <;>
          simp [checkField, badRawSpec, Except.isOk, Except.toBool]
      · by_cases hC : ty = "Custom"
        · subst hC
          cases c <;>
            simp [checkField, badRawSpec, Except.isOk, Except.toBool]
        · simp [checkField, badRawSpec, Except.isOk, Except.toBool, hS, hC]

theorem buildFields_isOk (l : List (String × RawSpec)) :
    ∀ acc, (buildFields l acc).isOk = true ↔
      ∀ kv ∈ l, badRawSpec kv.2 = false := by
  induction l with
  | nil => intro acc; simp [buildFields, Except.isOk, Except.toBool]
  | cons kv rest ih =>
    intro acc
    obtain ⟨k, v⟩ := kv
    rw [buildFields]
    rcases hcf : checkField v with e | f
    · have hbad : badRawSpec v = true := by
        have := checkField_isOk v
        rw [hcf] at this
        simp [Except.isOk, Except.toBool] at this
        exact Bool.not_eq_false _ |>.mp (fun h => by simp [h] at this)
      simp only [Except.isOk, Except.toBool]
      constructor
      · intro h; exact absurd h (by simp)
      · intro h
        have := h (k, v) (List.mem_cons_self _ _)
        rw [hbad] at this
        exact absurd this (by simp)
    · have hgood : badRawSpec v = false := by
        have := checkField_isOk v
        rw [hcf] at this
        simp [Except.isOk, Except.toBool] at this
        exact this
      rw [ih (odInsert acc k f)]
      constructor
      · intro h kv' hkv'
        rcases List.mem_cons.mp hkv' with rfl | hmem
        · exact hgood
        · exact h kv' hmem
      · intro h kv' hkv'
        exact h kv' (List.mem_cons_of_mem _ hkv')

/-- C3: data model construction fails exactly when some field spec is not
a dict, lacks a type, has a type other than String or Custom, carries a
comparator on a String field or lacks one on a Custom field; on every
well-formed field definition it succeeds.  The Missing loop never raises. -/
theorem initializeDataModel_error_iff (fields : List (String × RawSpec)) :
    (initializeDataModel fields).isOk = true ↔
      ∀ kv ∈ fields, badRawSpec kv.2 = false := by
  rw [← buildFields_isOk fields []]
  rw [initializeDataModel]
  rcases h : buildFields fields [] with e | fs <;>
    simp [h, Except.isOk, Except.toBool]

/-- The field record the validation chain produces on a well-formed spec. -/
def fieldOf : RawSpec → ModelField
  | .notDict => ⟨"", none, none, 0⟩
  | .dict t c m =>
    match t with
    | none => ⟨"", none, none, 0⟩
    | some ty =>
      if ty = "String" then ⟨ty, some Comparator.affineGap, m, 0⟩
      else ⟨ty, c, m, 0⟩

theorem checkField_ok_of_good (v : RawSpec) (h : badRawSpec v = false) :
    checkField v = .ok (fieldOf v) := by
  cases v with
  | notDict => simp [badRawSpec] at h
  | dict t c m =>
    cases t with
    | none => simp [badRawSpec] at h
    | some ty =>
      by_cases hS : ty = "String"
      · subst hS
        have hc : c = none := by
          cases c with
          | none => rfl
          | some cc => simp [badRawSpec] at h
        subst hc
        simp [checkField, fieldOf]
      · by_cases hC : ty = "Custom"
        · subst hC
          have hc : c ≠ none := by
            intro hcn
            subst hcn
            simp [badRawSpec] at h
          simp [checkField, fieldOf, hc]
        · simp [badRawSpec, hS, hC] at h

theorem String.append_cancel_suffix {a b sfx : String} (h : a ++ sfx = b ++ sfx) :
    a = b := by
  have hd : a.data ++ sfx.data = b.data ++ sfx.data := by
    rw [← String.data_append, ← String.data_append, h]
  have := List.append_cancel_right hd
  cases a
  cases b
  exact congrArg String.mk (by simpa using this)

theorem odInsert_append {F : Type} (m : List (String × F)) (k : String) (v : F)
    (h : ∀ p ∈ m, p.1 ≠ k) : odInsert m k v = m ++ [(k, v)] := by
  have hany : m.any (fun p => decide (p.1 = k)) = false := by
    rw [List.any_eq_false]
    intro p hp
    simpa using h p hp
  rw [odInsert, hany]
  simp

theorem map_update_of_ne {F : Type} (l : List (String × F)) (k : String) (v : F)
    (h : ∀ p ∈ l, p.1 ≠ k) :
    l.map (fun p => if p.1 = k then (k, v) else p) = l := by
  induction l with
  | nil => rfl
  | cons p l ih =>
    simp only [List.map_cons]
    rw [if_neg (h p (List.mem_cons_self _ _)),
      ih (fun q hq => h q (List.mem_cons_of_mem _ hq))]

theorem odInsert_update {F : Type} (l₁ l₂ : List (String × F)) (k : String)
    (f v : F) (h1 : ∀ p ∈ l₁, p.1 ≠ k) (h2 : ∀ p ∈ l₂, p.1 ≠ k) :
    odInsert (l₁ ++ (k, f) :: l₂) k v = l₁ ++ (k, v) :: l₂ := by
  have hany : (l₁ ++ (k, f) :: l₂).any (fun p => decide (p.1 = k)) = true := by
    rw [List.any_eq_true]
    exact ⟨(k, f), by simp, by simp⟩
  rw [odInsert, if_pos hany]
  simp only [List.map_append, List.map_cons]
  rw [map_update_of_ne l₁ k v h1, map_update_of_ne l₂ k v h2]
  simp

theorem buildFields_ok_of_good :
    ∀ (l : List (String × RawSpec)) (acc : List (String × ModelField)),
      (∀ kv ∈ l, badRawSpec kv.2 = false) →
      (l.map Prod.fst).Nodup →
      (∀ kv ∈ l, ∀ p ∈ acc, p.1 ≠ kv.1) →
      buildFields l acc = .ok (acc ++ l.map (fun kv => (kv.1, fieldOf kv.2))) := by
  intro l
  induction l with
  | nil => intro acc _ _ _; simp [buildFields]
  | cons kv rest ih =>
    obtain ⟨k, v⟩ := kv
    intro acc hgood hnd hfresh
    have hcf : checkField v = .ok (fieldOf v) :=
      checkField_ok_of_good v (hgood (k, v) (List.mem_cons_self _ _))
    rw [buildFields, hcf]
    show buildFields rest (odInsert acc k (fieldOf v)) = _
    rw [odInsert_append acc k _
      (fun p hp => hfresh (k, v) (List.mem_cons_self _ _) p hp)]
    have hk_rest : ∀ kv' ∈ rest, k ≠ kv'.1 := by
      intro kv' hkv' hkk
      have : k ∈ rest.map Prod.fst := hkk ▸ List.mem_map_of_mem Prod.fst hkv'
      exact (List.nodup_cons.mp (by simpa using hnd)).1 this
    rw [ih (acc ++ [(k, fieldOf v)])
      (fun kv' h => hgood kv' (List.mem_cons_of_mem _ h))
      (List.nodup_cons.mp (by simpa using hnd)).2
      (by
        intro kv' hkv' p hp
        rcases List.mem_append.mp hp with hp | hp
        · exact hfresh kv' (List.mem_cons_of_mem _ hkv') p hp
        · rcases List.mem_singleton.mp hp with rfl
          exact hk_rest kv' hkv')]
    simp

/-- The in-place effect of the Missing loop on one already-present field:
a field without a Missing key gets Missing set to False, others are left
alone. -/
def setMissingDefault (f : ModelField) : ModelField :=
  match f.missing with
  | none => { f with missing := some false }
  | some _ => f

/-- The update applied entrywise to the pre-existing fields. -/
def updEntry (kv : String × ModelField) : String × ModelField :=
  (kv.1, setMissingDefault kv.2)

/-- The synthetic companion entries the Missing loop appends, in field
order. -/
def companionsOf (fs : List (String × ModelField)) :
    List (String × ModelField) :=
  fs.filterMap (fun kv =>
    if kv.2.missing = some true then
      some (kv.1 ++ ": not_missing", missingDataField)
    else none)

theorem companionsOf_append (l₁ l₂ : List (String × ModelField)) :
    companionsOf (l₁ ++ l₂) = companionsOf l₁ ++ companionsOf l₂ := by
  simp [companionsOf]

theorem mem_companionsOf {fs : List (String × ModelField)}
    {p : String × ModelField} :
    p ∈ companionsOf fs ↔
      ∃ kv, kv ∈ fs ∧ kv.2.missing = some true ∧
        p = (kv.1 ++ ": not_missing", missingDataField) := by
  simp only [companionsOf, List.mem_filterMap]
  constructor
  · rintro ⟨kv, hkv, h⟩
    by_cases hm : kv.2.missing = some true
    · rw [if_pos hm] at h
      exact ⟨kv, hkv, hm, (Option.some.inj h).symm⟩
    · rw [if_neg hm] at h
      cases h
  · rintro ⟨kv, hkv, hm, rfl⟩
    exact ⟨kv, hkv, by rw [if_pos hm]⟩

theorem ami_foldl :
    ∀ (todo done : List (String × ModelField)),
      (((done ++ todo).map Prod.fst).Nodup) →
      (∀ kv ∈ done ++ todo, ∀ kv' ∈ done ++ todo,
        kv.1 ++ ": not_missing" ≠ kv'.1) →
      todo.foldl amiStep (done.map updEntry ++ todo ++ companionsOf done) =
        (done ++ todo).map updEntry ++ companionsOf (done ++ todo) := by
  intro todo
  induction todo with
  | nil =>
    intro done _ _
    simp
  | cons kf todo' ih =>
    intro done hnd hfresh
    obtain ⟨k, f⟩ := kf
    have hmem_kf : ((k, f) : String × ModelField) ∈ done ++ (k, f) :: todo' := by
      simp
    have hnd' := hnd
    rw [List.map_append] at hnd'
    have hdisj := (List.nodup_append.mp hnd').2.2
    have hk_done : ∀ p ∈ done, p.1 ≠ k := by
      intro p hp hpk
      exact hdisj (List.mem_map_of_mem Prod.fst hp)
        (by rw [hpk]; simp)
    have hk_todo' : ∀ p ∈ todo', p.1 ≠ k := by
      have hndr : (List.map Prod.fst ((k, f) :: todo')).Nodup :=
        (List.nodup_append.mp hnd').2.1
      rw [List.map_cons, List.nodup_cons] at hndr
      intro p hp hpk
      have hmem : p.1 ∈ todo'.map Prod.fst := List.mem_map_of_mem Prod.fst hp
      rw [hpk] at hmem
      exact hndr.1 hmem
    have hsfx_nokey : ∀ kv' ∈ done ++ (k, f) :: todo',
        k ++ ": not_missing" ≠ kv'.1 := fun kv' h => hfresh (k, f) hmem_kf kv' h
    have happ : (done ++ [(k, f)]) ++ todo' = done ++ (k, f) :: todo' := by simp
    have hstep : amiStep (done.map updEntry ++ (k, f) :: todo' ++ companionsOf done)
        (k, f) =
        (done ++ [(k, f)]).map updEntry ++ todo' ++
          companionsOf (done ++ [(k, f)]) := by
      rcases hm : f.missing with _ | b
      · -- Missing key absent: in-place update setting Missing to False
        simp only [amiStep, hm]
        have hupdate : odInsert
            (done.map updEntry ++ ((k, f) :: (todo' ++ companionsOf done))) k
            { f with missing := some false } =
            done.map updEntry ++
              ((k, { f with missing := some false }) ::
                (todo' ++ companionsOf done)) := by
          apply odInsert_update
          · intro p hp
            obtain ⟨q, hq, rfl⟩ := List.mem_map.mp hp
            exact hk_done q hq
          · intro p hp
            rcases List.mem_append.mp hp with hp | hp
            · exact hk_todo' p hp
            · obtain ⟨kv, hkv, _, rfl⟩ := mem_companionsOf.mp hp
              exact hfresh kv (List.mem_append_left _ hkv) (k, f) hmem_kf
        rw [show done.map updEntry ++ (k, f) :: todo' ++ companionsOf done =
            done.map updEntry ++ ((k, f) :: (todo' ++ companionsOf done)) by simp]
        rw [hupdate, companionsOf_append, List.map_append]
        simp [companionsOf, hm, updEntry, setMissingDefault]
      · cases b
        · -- Missing key present and False: nothing happens
          simp only [amiStep, hm]
          rw [companionsOf_append, List.map_append]
          simp [companionsOf, hm, updEntry, setMissingDefault]
        · -- Missing key present and True: append the companion
          simp only [amiStep, hm]
          have happend : odInsert
              (done.map updEntry ++ (k, f) :: todo' ++ companionsOf done)
              (k ++ ": not_missing") missingDataField =
              (done.map updEntry ++ (k, f) :: todo' ++ companionsOf done) ++
                [(k ++ ": not_missing", missingDataField)] := by
            apply odInsert_append
            intro p hp
            rcases List.mem_append.mp hp with hp | hp
            · rcases List.mem_append.mp hp with hp1 | hp1
              · obtain ⟨q, hq, rfl⟩ := List.mem_map.mp hp1
                exact fun h =>
                  hsfx_nokey q (List.mem_append_left _ hq) h.symm
              · exact fun h =>
                  hsfx_nokey p (List.mem_append_right _ hp1) h.symm
            · obtain ⟨kv, hkv, _, rfl⟩ := mem_companionsOf.mp hp
              intro h
              have hkk : kv.1 = k := String.append_cancel_suffix h
              exact hk_done kv hkv hkk
          rw [happend, companionsOf_append, List.map_append]
          simp [companionsOf, hm, updEntry, setMissingDefault]
    rw [List.foldl_cons, hstep,
      ih (done ++ [(k, f)]) (by rw [happ]; exact hnd) (by rw [happ]; exact hfresh),
      happ]

theorem addMissingIndicators_eq (fs : List (String × ModelField))
    (hnd : (fs.map Prod.fst).Nodup)
    (hfresh : ∀ kv ∈ fs, ∀ kv' ∈ fs, kv.1 ++ ": not_missing" ≠ kv'.1) :
    addMissingIndicators fs = fs.map updEntry ++ companionsOf fs := by
  have h := ami_foldl fs [] (by simpa using hnd) (by simpa using hfresh)
  simpa [addMissingIndicators, companionsOf] using h

theorem setMissingDefault_weight (f : ModelField) :
    (setMissingDefault f).weight = f.weight := by
  rw [setMissingDefault]
  rcases f.missing with _ | b <;> rfl

theorem setMissingDefault_comparator (f : ModelField) :
    (setMissingDefault f).comparator = f.comparator := by
  rw [setMissingDefault]
  rcases f.missing with _ | b <;> rfl

theorem fieldOf_weight (v : RawSpec) : (fieldOf v).weight = 0 := by
  cases v with
  | notDict => rfl
  | dict t c m =>
    cases t with
    | none => rfl
    | some ty =>
      rw [fieldOf]
      split <;> rfl

theorem fieldOf_comparator_string (v : RawSpec) (h : v.typeOf = some "String") :
    (fieldOf v).comparator = some Comparator.affineGap := by
  cases v with
  | notDict => cases h
  | dict t c m =>
    have ht : t = some "String" := h
    subst ht
    simp [fieldOf]

theorem fieldOf_missing (v : RawSpec) (hgood : badRawSpec v = false) :
    (fieldOf v).missing = v.missingOf := by
  cases v with
  | notDict => simp [badRawSpec] at hgood
  | dict t c m =>
    cases t with
    | none => simp [badRawSpec] at hgood
    | some ty =>
      rw [fieldOf]
      split <;> rfl

/-- C5 (amended): on a well-formed field definition (with distinct field
names that do not collide with synthetic companion names) the constructed
data model has bias 0, gives every field weight 0, binds the affine-gap
comparator to every String field, and for every field whose spec has
Missing true appends the synthetic companion field named
name ++ ": not_missing" (note the blank after the colon) of type
Missing Data with weight 0. -/
theorem initializeDataModel_wellformed (fields : List (String × RawSpec))
    (hwf : ∀ kv ∈ fields, badRawSpec kv.2 = false)
    (hnd : (fields.map Prod.fst).Nodup)
    (hnc : ∀ kv ∈ fields, ∀ kv' ∈ fields, kv.1 ++ ": not_missing" ≠ kv'.1) :
    ∃ dm, initializeDataModel fields = .ok dm ∧ dm.bias = 0 ∧
      (∀ e ∈ dm.fields, e.2.weight = 0) ∧
      (∀ kv ∈ fields, kv.2.typeOf = some "String" →
        ∃ g, (kv.1, g) ∈ dm.fields ∧ g.comparator = some Comparator.affineGap) ∧
      (∀ kv ∈ fields, kv.2.missingOf = some true →
        (kv.1 ++ ": not_missing", missingDataField) ∈ dm.fields) := by
  have hb : buildFields fields [] =
      .ok (fields.map (fun kv => (kv.1, fieldOf kv.2))) := by
    rw [buildFields_ok_of_good fields [] hwf hnd (by intro kv _ p hp; cases hp)]
    simp
  have hkeys : (fields.map (fun kv => (kv.1, fieldOf kv.2))).map Prod.fst =
      fields.map Prod.fst := by
    rw [List.map_map]
    exact List.map_congr_left (fun kv _ => rfl)
  have hmem_fs : ∀ q ∈ fields.map (fun kv => (kv.1, fieldOf kv.2)),
      ∃ kv ∈ fields, q = (kv.1, fieldOf kv.2) := by
    intro q hq
    obtain ⟨kv, hkv, rfl⟩ := List.mem_map.mp hq
    exact ⟨kv, hkv, rfl⟩
  have hAMI : addMissingIndicators (fields.map (fun kv => (kv.1, fieldOf kv.2))) =
      (fields.map (fun kv => (kv.1, fieldOf kv.2))).map updEntry ++
        companionsOf (fields.map (fun kv => (kv.1, fieldOf kv.2))) := by
    apply addMissingIndicators_eq
    · rw [hkeys]; exact hnd
    · intro kv hkv kv' hkv'
      obtain ⟨q, hq, rfl⟩ := hmem_fs kv hkv
      obtain ⟨q', hq', rfl⟩ := hmem_fs kv' hkv'
      exact hnc q hq q' hq'
  refine ⟨⟨(fields.map (fun kv => (kv.1, fieldOf kv.2))).map updEntry ++
      companionsOf (fields.map (fun kv => (kv.1, fieldOf kv.2))), 0⟩,
    ?_, rfl, ?_, ?_, ?_⟩
  · rw [initializeDataModel, hb]
    exact congrArg (fun l => Except.ok (DataModel.mk l 0)) hAMI
  · intro e he
    rcases List.mem_append.mp he with he | he
    · obtain ⟨q, hq, rfl⟩ := List.mem_map.mp he
      obtain ⟨kv, _, rfl⟩ := hmem_fs q hq
      show (setMissingDefault (fieldOf kv.2)).weight = 0
      rw [setMissingDefault_weight, fieldOf_weight]
    · obtain ⟨kv, _, _, rfl⟩ := mem_companionsOf.mp he
      rfl
  · intro kv hkv hty
    refine ⟨setMissingDefault (fieldOf kv.2), ?_, ?_⟩
    · apply List.mem_append_left
      have : updEntry (kv.1, fieldOf kv.2) = (kv.1, setMissingDefault (fieldOf kv.2)) := rfl
      rw [← this]
      exact List.mem_map_of_mem updEntry
        (List.mem_map_of_mem (fun kv => (kv.1, fieldOf kv.2)) hkv)
    · rw [setMissingDefault_comparator]
      exact fieldOf_comparator_string kv.2 hty
  · intro kv hkv hmiss
    apply List.mem_append_right
    rw [mem_companionsOf]
    refine ⟨(kv.1, fieldOf kv.2), List.mem_map_of_mem _ hkv, ?_, rfl⟩
    show (fieldOf kv.2).missing = some true
    rw [fieldOf_missing kv.2 (hwf kv hkv)]
    exact hmiss

/-- Witness for initializeDataModel_wellformed at a concrete input: one
String field named a with Missing true. -/
theorem initializeDataModel_wellformed_witness :
    ∃ dm, initializeDataModel
        [("a", RawSpec.dict (some "String") none (some true))] = .ok dm ∧
      dm.bias = 0 ∧
      (∀ e ∈ dm.fields, e.2.weight = 0) ∧
      (∀ kv ∈ [("a", RawSpec.dict (some "String") none (some true))],
        kv.2.typeOf = some "String" →
        ∃ g, (kv.1, g) ∈ dm.fields ∧ g.comparator = some Comparator.affineGap) ∧
      (∀ kv ∈ [("a", RawSpec.dict (some "String") none (some true))],
        kv.2.missingOf = some true →
        (kv.1 ++ ": not_missing", missingDataField) ∈ dm.fields) :=
  initializeDataModel_wellformed
    [("a", RawSpec.dict (some "String") none (some true))]
    (by intro kv hkv; rcases List.mem_singleton.mp hkv with rfl; rfl)
    (by simp)
    (by
      intro kv hkv kv' hkv'
      rcases List.mem_singleton.mp hkv with rfl
      rcases List.mem_singleton.mp hkv' with rfl
      decide)

/-- C5 counterexample input: the single field a of type String with
Missing true.  The synthetic companion is keyed "a: not_missing", with a
blank after the colon, and no field named "a:not_missing" exists. -/
theorem initializeDataModel_companion_name_cex :
    (initializeDataModel
        [("a", RawSpec.dict (some "String") none (some true))]).map
      (fun dm => dm.fields.map Prod.fst) =
        .ok ["a", "a: not_missing"] ∧
      (("a: not_missing" : String) ≠ "a:not_missing") := by
  constructor
  · rfl
  · decide

/-! ## The semi-supervised bootstrap in _learnBlocking

Dedupe._learnBlocking starts by computing
training.semiSupervisedNonDuplicates(data_sample, data_model) and extending
training_pairs[0] with the result, with no condition on the labeled set.
semiSupervisedNonDuplicates itself lives outside this snapshot, so the
confident non-duplicates it returns enter the embedding as an abstract
list. -/

/-- The labeled training pairs, the label-0 and label-1 lists. -/
structure TrainingPairs (π : Type) : Type where
  zero : List π
  one : List π
deriving DecidableEq

/-- The bootstrap step of Dedupe._learnBlocking:
training_pairs[0].extend(confident_nonduplicates), performed
unconditionally before blocking predicates are learned. -/
def learnBlockingBootstrap {π : Type} (confident_nonduplicates : List π)
    (training_pairs : TrainingPairs π) : TrainingPairs π :=
  { training_pairs with
      zero := training_pairs.zero ++ confident_nonduplicates }

/-- C6 counterexample input: a labeled set holding one negative and one
positive pair (no label shortage) and a nonempty confident-non-duplicate
list.  The bootstrap still fires, in _learnBlocking, and changes the
label-0 pairs. -/
theorem learnBlockingBootstrap_unconditional_cex :
    learnBlockingBootstrap [2] (TrainingPairs.mk [0] [1]) =
        TrainingPairs.mk [0, 2] [1] ∧
      (TrainingPairs.mk [0, 2] [1] ≠ TrainingPairs.mk ([0] : List ℕ) [1]) ∧
      (TrainingPairs.mk ([0] : List ℕ) [1]).zero.length = 1 ∧
      (TrainingPairs.mk ([0] : List ℕ) [1]).one.length = 1 :=
  ⟨rfl, by decide, rfl, rfl⟩

/-- C6 (amended): the semiSupervisedNonDuplicates bootstrap happens in the
blocking learner _learnBlocking, not in the active learner, and it is
unconditional: whatever the labeled set holds, the label-0 pairs are
extended with the confident non-duplicates and the label-1 pairs are left
unchanged. -/
theorem learnBlockingBootstrap_spec {π : Type} (confident : List π)
    (tp : TrainingPairs π) :
    (learnBlockingBootstrap confident tp).zero = tp.zero ++ confident ∧
    (learnBlockingBootstrap confident tp).one = tp.one :=
  ⟨rfl, rfl⟩

/-! ## Training file write and read

Dedupe.writeTraining serialises the labeled pairs as a JSON object whose
keys are the labels 0 and 1 (integer dict keys become the strings "0" and
"1" in JSON) and whose values are arrays of two-element pair arrays, each
record passed through dict().  Dedupe._readTraining loads the object,
converts each key back with int(), indexes the fresh dict keyed 0 and 1
(a label outside those two raises KeyError) and passes each record through
core.frozendict.  Records are modelled as association lists, on which
dict() and frozendict() are the identity. -/

/-- A record as stored in the training file: field name to string value. -/
abbrev TrainingRecord : Type := List (String × String)

/-- Python int() applied to a JSON object key: the value of a decimal
digit string, none otherwise (in which case the source raises). -/
def parseIntKey (s : String) : Option ℕ :=
  if s.data ≠ [] ∧ ∀ c ∈ s.data, c.isDigit then
    some (s.data.foldl (fun n c => 10 * n + (c.toNat - 48)) 0)
  else none

/-- Dedupe.writeTraining: the JSON object written to the training file. -/
def writeTraining (tp : TrainingPairs (TrainingRecord × TrainingRecord)) :
    List (String × List (TrainingRecord × TrainingRecord)) :=
  [("0", tp.zero.map (fun pr => (pr.1, pr.2))),
   ("1", tp.one.map (fun pr => (pr.1, pr.2)))]

/-- The loop of Dedupe._readTraining over the loaded JSON object,
rebuilding the labeled pairs from a fresh dict keyed 0 and 1. -/
def readTrainingLoop :
    List (String × List (TrainingRecord × TrainingRecord)) →
      TrainingPairs (TrainingRecord × TrainingRecord) →
      Except String (TrainingPairs (TrainingRecord × TrainingRecord))
  | [], tp => .ok tp
  | le :: rest, tp =>
    match parseIntKey le.1 with
    | some 0 => readTrainingLoop rest
        { tp with zero := tp.zero ++ le.2.map (fun pr => (pr.1, pr.2)) }
    | some 1 => readTrainingLoop rest
        { tp with one := tp.one ++ le.2.map (fun pr => (pr.1, pr.2)) }
    | _ => .error "KeyError"

/-- Dedupe._readTraining, the labeled-pairs part. -/
def readTrainingPairs
    (raw : List (String × List (TrainingRecord × TrainingRecord))) :
    Except String (TrainingPairs (TrainingRecord × TrainingRecord)) :=
  readTrainingLoop raw ⟨[], []⟩

/-- C9: writing labeled pairs with writeTraining and reading the file back
with _readTraining returns exactly the original label-0 and label-1 pair
lists (records are compared as field maps, which the association-list
model builds in). -/
theorem readTraining_writeTraining_roundTrip
    (tp : TrainingPairs (TrainingRecord × TrainingRecord)) :
    readTrainingPairs (writeTraining tp) = .ok tp := by
  have hid : ∀ l : List (TrainingRecord × TrainingRecord),
      l.map (fun pr => (pr.1, pr.2)) = l := fun l => List.map_id l
  have h0 : parseIntKey "0" = some 0 := by decide
  have h1 : parseIntKey "1" = some 1 := by decide
  rw [readTrainingPairs, writeTraining]
  simp only [readTrainingLoop, h0, h1, hid, List.nil_append]

/-! ## The train orchestration

Embedding of Dedupe.train.  The collaborators that live outside this
snapshot (training.activeLearning, crossvalidation.gridSearch,
core.trainModel, the file reading inside _readTraining beyond the pair
lists, and the numpy training-data array) enter as abstract parameters:
the claims settled here are about the orchestration in api.py, namely
the dynamic type check on training_source, the branch taken, the k = 20
handed to gridSearch, and the final trainModel fit stored in the data
model.  Python raising before mutating is modelled by returning the
partially mutated state together with the error. -/

/-- The mutable attributes of a Dedupe instance that train touches. -/
structure DedupeState (TD TP DS : Type) : Type where
  data_model : DataModel
  training_data : Option TD
  training_pairs : Option TP
  data_sample : Option DS

/-- The dynamic type of the training_source argument: a string path, a
plain function, the default None, or any other value. -/
inductive TrainingSource (File Oracle : Type) : Type
  | file : File → TrainingSource File Oracle
  | labelingFn : Oracle → TrainingSource File Oracle
  | noInput : TrainingSource File Oracle
  | otherValue : TrainingSource File Oracle

/-- The exception train raises on a bad training_source. -/
inductive TrainError : Type
  | valueError : TrainError
deriving DecidableEq

/-- Dedupe._initializeTraining: reset training_data to the empty array and
training_pairs to None, then load the file when one is passed. -/
def initializeTraining {TD TP DS File : Type} (emptyTD : TD)
    (readTraining : File → TD → TP × TD)
    (st : DedupeState TD TP DS) (training_file : Option File) :
    DedupeState TD TP DS :=
  let st1 : DedupeState TD TP DS :=
    { st with training_data := some emptyTD, training_pairs := none }
  match training_file with
  | some f =>
    let r := readTraining f emptyTD
    { st1 with training_pairs := some r.1, training_data := some r.2 }
  | none => st1

/-- Dedupe.train: assign data_sample, type-check training_source, read the
file or run active learning, then pick alpha by gridSearch with k = 20 and
store the trainModel fit of the full training data in the data model. -/
def train {TD TP DS File Oracle : Type} (emptyTD : TD)
    (readTraining : File → TD → TP × TD)
    (activeLearning :
      DS → DataModel → Oracle → TD → Option TP → TD × TP × DataModel)
    (gridSearch : TD → (TD → DataModel → ℚ → DataModel) → DataModel → ℕ → ℚ)
    (trainModel : TD → DataModel → ℚ → DataModel)
    (st : DedupeState TD TP DS) (data_sample : DS)
    (training_source : TrainingSource File Oracle) :
    DedupeState TD TP DS × Option TrainError :=
  let st0 : DedupeState TD TP DS := { st with data_sample := some data_sample }
  match training_source with
  | .noInput => (st0, some TrainError.valueError)
  | .otherValue => (st0, some TrainError.valueError)
  | .file f =>
    let st1 := if st0.training_data.isNone then
        initializeTraining emptyTD readTraining st0 (some f)
      else st0
    let r := readTraining f (st1.training_data.getD emptyTD)
    let st2 : DedupeState TD TP DS :=
      { st1 with training_pairs := some r.1, training_data := some r.2 }
    let alpha := gridSearch r.2 trainModel st2.data_model 20
    ({ st2 with data_model := trainModel r.2 st2.data_model alpha }, none)
  | .labelingFn g =>
    let st1 := if st0.training_data.isNone then
        initializeTraining emptyTD readTraining st0 none
      else st0
    let r := activeLearning data_sample st1.data_model g
      (st1.training_data.getD emptyTD) st1.training_pairs
    let st2 : DedupeState TD TP DS :=
      { st1 with
          training_data := some r.1
          training_pairs := some r.2.1
          data_model := r.2.2 }
    let alpha := gridSearch r.1 trainModel st2.data_model 20
    ({ st2 with data_model := trainModel r.1 st2.data_model alpha }, none)

/-- C10: train called with a training_source that is neither a string path
nor a plain function, None included, raises ValueError with the data model
(and all other training state) untouched; only data_sample has been
assigned, which the source does first. -/
theorem train_invalid_source {TD TP DS File Oracle : Type} (emptyTD : TD)
    (readTraining : File → TD → TP × TD)
    (activeLearning :
      DS → DataModel → Oracle → TD → Option TP → TD × TP × DataModel)
    (gridSearch : TD → (TD → DataModel → ℚ → DataModel) → DataModel → ℕ → ℚ)
    (trainModel : TD → DataModel → ℚ → DataModel)
    (st : DedupeState TD TP DS) (ds : DS)
    (ts : TrainingSource File Oracle)
    (h : ts = TrainingSource.noInput ∨ ts = TrainingSource.otherValue) :
    (train emptyTD readTraining activeLearning gridSearch trainModel
        st ds ts).2 = some TrainError.valueError ∧
    (train emptyTD readTraining activeLearning gridSearch trainModel
        st ds ts).1.data_model = st.data_model ∧
    (train emptyTD readTraining activeLearning gridSearch trainModel
        st ds ts).1.training_data = st.training_data ∧
    (train emptyTD readTraining activeLearning gridSearch trainModel
        st ds ts).1.training_pairs = st.training_pairs ∧
    (train emptyTD readTraining activeLearning gridSearch trainModel
        st ds ts).1.data_sample = some ds := by
  rcases h with rfl | rfl <;> exact ⟨rfl, rfl, rfl, rfl, rfl⟩

/-- A training source is valid when it is a string path or a function. -/
def TrainingSource.isValid {File Oracle : Type} :
    TrainingSource File Oracle → Prop
  | .file _ => True
  | .labelingFn _ => True
  | .noInput => False
  | .otherValue => False

/-- C7: on every valid training source, train picks alpha by handing
gridSearch the full training data with k = 20, fits trainModel on that
same full training data at the chosen alpha, and stores the result (with
its weights and bias) as the data model. -/
theorem train_fit_uses_gridSearch_alpha {TD TP DS File Oracle : Type}
    (emptyTD : TD) (readTraining : File → TD → TP × TD)
    (activeLearning :
      DS → DataModel → Oracle → TD → Option TP → TD × TP × DataModel)
    (gridSearch : TD → (TD → DataModel → ℚ → DataModel) → DataModel → ℕ → ℚ)
    (trainModel : TD → DataModel → ℚ → DataModel)
    (st : DedupeState TD TP DS) (ds : DS)
    (ts : TrainingSource File Oracle) (h : ts.isValid) :
    ∃ td dm0,
      (train emptyTD readTraining activeLearning gridSearch trainModel
          st ds ts).2 = none ∧
      (train emptyTD readTraining activeLearning gridSearch trainModel
          st ds ts).1.training_data = some td ∧
      (train emptyTD readTraining activeLearning gridSearch trainModel
          st ds ts).1.data_model =
        trainModel td dm0 (gridSearch td trainModel dm0 20) := by
  cases ts with
  | file f => exact ⟨_, _, rfl, rfl, rfl⟩
  | labelingFn g => exact ⟨_, _, rfl, rfl, rfl⟩
  | noInput => cases h
  | otherValue => cases h

/-- Constant collaborators used to witness the orchestration theorems. -/
def constReadTraining : ℕ → ℕ → ℕ × ℕ := fun _ td => (0, td)

def constActiveLearning : ℕ → DataModel → ℕ → ℕ → Option ℕ → ℕ × ℕ × DataModel :=
  fun _ dm _ td _ => (td, 0, dm)

def constGridSearch : ℕ → (ℕ → DataModel → ℚ → DataModel) → DataModel → ℕ → ℚ :=
  fun _ _ _ _ => 0

def constTrainModel : ℕ → DataModel → ℚ → DataModel := fun _ dm _ => dm

def emptyDedupeState : DedupeState ℕ ℕ ℕ := ⟨⟨[], 0⟩, none, none, none⟩

/-- Witness for train_fit_uses_gridSearch_alpha at a concrete input. -/
theorem train_fit_uses_gridSearch_alpha_witness :
    ∃ td dm0,
      (train 0 constReadTraining constActiveLearning constGridSearch
          constTrainModel emptyDedupeState 0 (TrainingSource.file 0)).2 = none ∧
      (train 0 constReadTraining constActiveLearning constGridSearch
          constTrainModel emptyDedupeState 0
            (TrainingSource.file 0)).1.training_data = some td ∧
      (train 0 constReadTraining constActiveLearning constGridSearch
          constTrainModel emptyDedupeState 0
            (TrainingSource.file 0)).1.data_model =
        constTrainModel td dm0 (constGridSearch td constTrainModel dm0 20) :=
  train_fit_uses_gridSearch_alpha 0 constReadTraining constActiveLearning
    constGridSearch constTrainModel emptyDedupeState 0
    (TrainingSource.file 0) trivial

/-- Witness for train_invalid_source at a concrete input: the omitted
training source None. -/
theorem train_invalid_source_witness :
    (train 0 constReadTraining constActiveLearning constGridSearch
        constTrainModel emptyDedupeState 0
          (TrainingSource.noInput : TrainingSource ℕ ℕ)).2 =
      some TrainError.valueError ∧
    (train 0 constReadTraining constActiveLearning constGridSearch
        constTrainModel emptyDedupeState 0
          (TrainingSource.noInput : TrainingSource ℕ ℕ)).1.data_model =
      emptyDedupeState.data_model ∧
    (train 0 constReadTraining constActiveLearning constGridSearch
        constTrainModel emptyDedupeState 0
          (TrainingSource.noInput : TrainingSource ℕ ℕ)).1.training_data =
      emptyDedupeState.training_data ∧
    (train 0 constReadTraining constActiveLearning constGridSearch
        constTrainModel emptyDedupeState 0
          (TrainingSource.noInput : TrainingSource ℕ ℕ)).1.training_pairs =
      emptyDedupeState.training_pairs ∧
    (train 0 constReadTraining constActiveLearning constGridSearch
        constTrainModel emptyDedupeState 0
          (TrainingSource.noInput : TrainingSource ℕ ℕ)).1.data_sample =
      some 0 :=
  train_invalid_source 0 constReadTraining constActiveLearning constGridSearch
    constTrainModel emptyDedupeState 0 TrainingSource.noInput (Or.inl rfl)
